import Mathlib

/-!
Shallow embedding of the product-sheet-validator core (TypeScript) and proofs
of the specified properties.

The embedding follows the current variant of the code: the validator module
(`validateUrls`, `validateProductPage`, `isHttpUrl`, `isSameProductUrl`,
`normalizePath`, `findDocumentationSection`, `findDocumentationLink`,
`isValidPdfLink`, `resolveUrl`) together with the fetch module
(`fetchPage`, `renderProductPage`, the user-agent constant).

External collaborators (the WHATWG URL parser, the HTML engine, the network)
are modelled as explicit oracle parameters; JavaScript strings are modelled
as Lean `String` with the character-level operations spelled out over
`String.data`.
-/

/-! ## String primitives (models of the JavaScript string operations used) -/

/-- Model of JavaScript `toLowerCase` restricted to ASCII: lowercase every
character of the string. -/
def lowerStr (s : String) : String :=
  String.mk (s.data.map Char.toLower)

/-- Model of JavaScript `String.prototype.includes`: `pat` occurs as a
contiguous substring of `s`. -/
def containsStr (s pat : String) : Bool :=
  decide (pat.data <:+: s.data)

/-- Model of JavaScript `String.prototype.trim` on a character list: drop
whitespace from both ends. -/
def trimChars (l : List Char) : List Char :=
  ((l.dropWhile Char.isWhitespace).reverse.dropWhile Char.isWhitespace).reverse

/-- Model of JavaScript `String.prototype.trim`. -/
def trimStr (s : String) : String :=
  String.mk (trimChars s.data)

/-- Model of `classAttr.split(/\s+/).filter(Boolean)`: split on whitespace
and keep the non-empty components. -/
def splitWsFilter (s : String) : List String :=
  ((s.data.splitOnP Char.isWhitespace).filter (fun g => g ≠ [])).map String.mk

/-- Model of JavaScript `Array.prototype.join(sep)`. -/
def joinSep (sep : String) : List String → String
  | [] => ""
  | [x] => x
  | x :: y :: rest => x ++ sep ++ joinSep sep (y :: rest)

/-! ## Path normalization (validator source: `normalizePath`)

Source:
```
function normalizePath(pathname: string): string {
    if (pathname === '/') { return pathname; }
    return pathname.replace(/\/+/g, '/').replace(/\/$/, '').toLowerCase();
}
```
-/

/-- Model of `replace(/\/+/g, '/')`: collapse each run of slashes to a single
slash.  The boolean argument records whether the previously emitted character
was a slash. -/
def collapseAux : List Char → Bool → List Char
  | [], _ => []
  | c :: rest, prevSlash =>
    if c = '/' then
      if prevSlash then collapseAux rest true
      else '/' :: collapseAux rest true
    else c :: collapseAux rest false

/-- Collapse repeated slashes in a character list. -/
def collapseSlashes (l : List Char) : List Char :=
  collapseAux l false

/-- Model of `replace(/\/$/, '')`: remove a single trailing slash, if any. -/
def stripTrailingSlash (l : List Char) : List Char :=
  if l.getLast? = some '/' then l.dropLast else l

/-- The list-level normalization pipeline: collapse slashes, strip one
trailing slash, lowercase. -/
def normList (l : List Char) : List Char :=
  (stripTrailingSlash (collapseSlashes l)).map Char.toLower

/-- `normalizePath` from the validator source: the root path `/` is returned
unchanged; otherwise collapse repeated slashes, strip a single trailing
slash, and lowercase. -/
def normalizePath (pathname : String) : String :=
  if pathname = "/" then pathname
  else String.mk (normList pathname.data)

/-- No two adjacent characters of the list are both slashes. -/
def noDoubleSlash : List Char → Bool
  | c₁ :: c₂ :: rest => (!(c₁ = '/' && c₂ = '/')) && noDoubleSlash (c₂ :: rest)
  | _ => true

/-- The list does not end with a slash. -/
def lastNotSlash (l : List Char) : Prop :=
  l.getLast? ≠ some '/'

/-! ## URL model

The WHATWG `URL` constructor is an external collaborator; it is modelled by
an oracle `parse : String → Option UrlParts` (`none` models the constructor
throwing). -/

/-- The components of a parsed URL that the validator reads. -/
structure UrlParts where
  protocol : String
  hostname : String
  pathname : String
deriving DecidableEq

/-- `isHttpUrl` from the validator source: the URL parses and its protocol is
`http:` or `https:`; a parse failure yields `false`. -/
def isHttpUrl (parse : String → Option UrlParts) (url : String) : Bool :=
  match parse url with
  | some parsed => parsed.protocol == "http:" || parsed.protocol == "https:"
  | none => false

/-- `isSameProductUrl` from the validator source: both URLs parse, the
hostnames are equal, and the normalized pathnames are equal; any parse
failure yields `false`. -/
def isSameProductUrl (parse : String → Option UrlParts)
    (requestedUrl finalUrl : String) : Bool :=
  match parse requestedUrl, parse finalUrl with
  | some requested, some finalParts =>
    if requested.hostname ≠ finalParts.hostname then false
    else normalizePath requested.pathname == normalizePath finalParts.pathname
  | _, _ => false

/-! ## HTML model

The HTML engine (cheerio) is external; a loaded document is modelled as the
list of its elements in document order, each carrying its raw `class`
attribute and its direct child anchor elements. -/

/-- A direct child anchor of the documentation section. -/
structure AnchorElem where
  isTag : Bool
  classAttr : Option String
  href : Option String
deriving DecidableEq

/-- An HTML element as seen by the documentation extractor. -/
structure HtmlElem where
  classAttr : String
  anchors : List AnchorElem
deriving DecidableEq

/-- The class names required of the documentation section by the selector
`.page__content.rte.text-subtext.product-documentation`. -/
def sectionSelectorClasses : List String :=
  ["page__content", "rte", "text-subtext", "product-documentation"]

/-- `findDocumentationSection` from the validator source: the first element
carrying all four selector classes, if any. -/
def findDocumentationSection (html : List HtmlElem) : Option HtmlElem :=
  html.find? (fun e =>
    sectionSelectorClasses.all (fun c => (splitWsFilter e.classAttr).contains c))

/-- `findDocumentationLink` from the validator source: among the section's
direct child anchors, take the first tag element whose class attribute,
split on whitespace, contains every required class; return its trimmed
`href`, treating an empty-after-trim or missing `href` as absent. -/
def findDocumentationLink (docSection : HtmlElem) (requiredClasses : List String) :
    Option String :=
  let link := docSection.anchors.find? (fun a =>
    if !a.isTag then false
    else
      match a.classAttr with
      | none => false
      | some classAttr =>
        let classNames := splitWsFilter classAttr
        requiredClasses.all (fun className => classNames.contains className))
  match link with
  | none => none
  | some a =>
    match a.href with
    | none => none
    | some rawHref =>
      let href := trimStr rawHref
      if href.length > 0 then some href else none

/-- Required classes of the safety-sheet link. -/
def safetyLinkClasses : List String :=
  ["product-documentation__link", "product-documentation__link--safety-data-sheet"]

/-- Required classes of the technical-sheet link. -/
def technicalLinkClasses : List String :=
  ["product-documentation__link", "product-documentation__link--technical-data-sheet"]

/-! ## PDF link verifier (validator source: `isValidPdfLink`, `resolveUrl`) -/

/-- The parts of a HEAD probe response read by the verifier. -/
structure HeadResponse where
  ok : Bool
  contentType : Option String
  contentDisposition : Option String
  url : Option String
deriving DecidableEq

/-- `resolveUrl` from the validator source: resolve `maybeRelative` against
`baseUrl` via the URL constructor (modelled by the oracle `urlResolve`,
`none` = the constructor threw); on failure fall back to `maybeRelative`
itself. -/
def resolveUrl (urlResolve : String → String → Option String)
    (baseUrl maybeRelative : String) : String :=
  match urlResolve maybeRelative baseUrl with
  | some s => s
  | none => maybeRelative

/-- Does the character list begin with `.pdf` (case-insensitively) followed
by `?`, `#`, or the end of the string?  One position of the regex
`/\.pdf(?:[?#]|$)/i`. -/
def pdfDotSuffix (l : List Char) : Bool :=
  match l with
  | c₁ :: c₂ :: c₃ :: c₄ :: rest =>
    c₁ = '.' && Char.toLower c₂ = 'p' && Char.toLower c₃ = 'd' && Char.toLower c₄ = 'f' &&
      (match rest with
       | [] => true
       | c :: _ => c = '?' || c = '#')
  | _ => false

/-- Model of `/\.pdf(?:[?#]|$)/i.test(finalUrl)`: the pattern matches at some
position of the string. -/
def pdfUrlTest : List Char → Bool
  | [] => false
  | c :: rest => pdfDotSuffix (c :: rest) || pdfUrlTest rest

/-- The body of `isValidPdfLink` (everything inside the `try`): resolve the
href, probe it (`probe` models the HEAD fetch; `Except.error` models a
thrown transport error), and classify the response.  An error escaping the
body models an exception reaching the surrounding `catch`. -/
def isValidPdfLinkBody (urlResolve : String → String → Option String)
    (probe : String → Except String HeadResponse)
    (baseUrl href : String) : Except String Bool :=
  let absoluteUrl := resolveUrl urlResolve baseUrl href
  match probe absoluteUrl with
  | Except.error e => Except.error e
  | Except.ok response =>
    if !response.ok then Except.ok false
    else
      let contentType := response.contentType.getD ""
      let contentDisposition := response.contentDisposition.getD ""
      let finalUrl := response.url.getD absoluteUrl
      let isPdfHeader := containsStr (lowerStr contentType) "application/pdf"
        || containsStr (lowerStr contentDisposition) "application/pdf"
        || containsStr (lowerStr contentDisposition) ".pdf"
      let isPdfUrl := pdfUrlTest finalUrl.data
      Except.ok (isPdfHeader || isPdfUrl)

/-- `isValidPdfLink` from the validator source: the body wrapped in
`try`/`catch (error) { return false }`. -/
def isValidPdfLink (urlResolve : String → String → Option String)
    (probe : String → Except String HeadResponse)
    (baseUrl href : String) : Bool :=
  match isValidPdfLinkBody urlResolve probe baseUrl href with
  | Except.ok b => b
  | Except.error _ => false

/-! ## Fetch module (source: `src/fetch.ts`) -/

/-- `MAX_ATTEMPTS` from the fetch module. -/
def MAX_ATTEMPTS : Nat := 5

/-- `BROWSER_USER_AGENT` from the fetch module. -/
def BROWSER_USER_AGENT : String :=
  "Mozilla/5.0 (Macintosh; Intel Mac OS X 10.15; rv:115.0) Gecko/20100101 Firefox/115.0"

/-- The headers object built by `fetchPage` for each GET request. -/
def fetchPageRequestHeaders : List (String × String) :=
  [("Accept", "text/html,application/xhtml+xml"), ("User-Agent", BROWSER_USER_AGENT)]

/-- The headers object built by `isValidPdfLink` for each HEAD probe (the
user-agent string is written out literally at that call site). -/
def pdfProbeRequestHeaders : List (String × String) :=
  [("User-Agent",
    "Mozilla/5.0 (Macintosh; Intel Mac OS X 10.15; rv:115.0) Gecko/20100101 Firefox/115.0")]

/-- The user agent passed to `browser.newContext` by `renderProductPage`. -/
def renderContextUserAgent : String := BROWSER_USER_AGENT

/-- The parts of an HTTP response read by `fetchPage`. -/
structure HttpResponse where
  status : Nat
  body : String
  url : Option String
  redirected : Bool
deriving DecidableEq

/-- WHATWG `response.ok`: the status is in the 200–299 range. -/
def HttpResponse.isOk (r : HttpResponse) : Bool :=
  200 ≤ r.status && r.status ≤ 299

/-- What one fetch attempt does: the request throws a transport error, or a
response arrives. -/
inductive AttemptOutcome where
  | throws (msg : String)
  | responds (response : HttpResponse)

/-- The page value built by `fetchPage` and `renderProductPage`. -/
structure FetchedPage where
  html : String
  finalUrl : String
  redirected : Bool
deriving DecidableEq

/-- The retry loop of `fetchPage`.  `env attempt` is what the network does on
the given (1-indexed) attempt; `fuel` is the number of remaining loop
iterations (`MAX_ATTEMPTS` at the start), `made` the number of attempts
performed so far, `lastError` the `lastError` variable.  Returns the result
together with the total number of attempts performed.

Faithful to the source, the `throw` for a non-retryable status sits inside
the `try` block, so it is caught by the `catch` and, when attempts remain,
retried like any other error. -/
def fetchPageGo (env : Nat → AttemptOutcome) (url : String) :
    Nat → Nat → Option String → Except String FetchedPage × Nat
  | 0, made, lastError => (Except.error (lastError.getD "Requête échouée"), made)
  | fuel + 1, made, lastError =>
    let attempt := made + 1
    match env attempt with
    | AttemptOutcome.throws msg =>
      if MAX_ATTEMPTS ≤ attempt then (Except.error msg, attempt)
      else fetchPageGo env url fuel attempt (some msg)
    | AttemptOutcome.responds response =>
      if response.isOk then
        (Except.ok ⟨response.body, response.url.getD url, response.redirected⟩, attempt)
      else
        let shouldRetry := response.status == 429
          || (500 ≤ response.status && response.status ≤ 599)
        if !shouldRetry then
          let msg := "statut HTTP " ++ toString response.status
          if MAX_ATTEMPTS ≤ attempt then (Except.error msg, attempt)
          else fetchPageGo env url fuel attempt (some msg)
        else
          fetchPageGo env url fuel attempt lastError

/-- `fetchPage` from the fetch module: run the retry loop from a fresh
state. -/
def fetchPage (env : Nat → AttemptOutcome) (url : String) :
    Except String FetchedPage × Nat :=
  fetchPageGo env url MAX_ATTEMPTS 0 none

/-- What the rendering engine reports for a navigation: the final URL of the
page and its content. -/
structure RenderResult where
  finalUrl : String
  html : String
deriving DecidableEq

/-- `renderProductPage` from the fetch module: navigate (the engine is the
oracle `browser`; `Except.error` models a navigation failure) and report the
page, setting `redirected` exactly when the final URL differs from the
requested URL as a string. -/
def renderProductPage (browser : String → Except String RenderResult)
    (url : String) : Except String FetchedPage :=
  match browser url with
  | Except.error e => Except.error e
  | Except.ok r => Except.ok ⟨r.html, r.finalUrl, r.finalUrl != url⟩

/-! ## Per-URL validation (validator source: `validateProductPage`) -/

/-- The OK/KO verdict. -/
inductive Verdict where
  | OK
  | KO
deriving DecidableEq

/-- `ValidationOutcome` from the validator source. -/
structure ValidationOutcome where
  url : String
  result : Verdict
  comments : String
deriving DecidableEq

/-- A network interaction performed while validating one URL; the validator
definitions below record these so that the absence of network calls on a
branch is provable. -/
inductive NetEvent where
  | render (url : String)
  | probe (finalUrl : String) (href : String)
deriving DecidableEq

/-- One sheet check of `validateProductPage` (the safety and technical blocks
are identical up to the required classes and the two comment strings):
produce the comments this check appends and the probes it performs.
`probeResult finalUrl href` models `await isValidPdfLink(finalUrl, href,
delayMs)`. -/
def sheetCheckComments (validatePdfLinks : Bool)
    (probeResult : String → String → Bool) (finalUrl : String)
    (href : Option String) (invalidMsg missingMsg : String) :
    List String × List NetEvent :=
  match href with
  | some h =>
    if validatePdfLinks then
      if probeResult finalUrl h then ([], [NetEvent.probe finalUrl h])
      else ([invalidMsg], [NetEvent.probe finalUrl h])
    else ([], [])
  | none => ([missingMsg], [])

/-- The part of `validateProductPage` after the redirect check: locate the
documentation section, run both sheet checks, and build the verdict.
`loadHtml` models the cheerio document load. -/
def analyzeDocumentation (validatePdfLinks : Bool)
    (loadHtml : String → List HtmlElem)
    (probeResult : String → String → Bool)
    (url : String) (page : FetchedPage) :
    ValidationOutcome × List NetEvent :=
  match findDocumentationSection (loadHtml page.html) with
  | none =>
    (⟨url, Verdict.KO,
      "Section product-documentation absente (fiche de sécurité et technique manquantes)"⟩, [])
  | some docSection =>
    let safetyHref := findDocumentationLink docSection safetyLinkClasses
    let safetyCheck := sheetCheckComments validatePdfLinks probeResult page.finalUrl
      safetyHref "Lien vers la fiche de sécurité invalide" "Fiche de sécurité manquante"
    let technicalHref := findDocumentationLink docSection technicalLinkClasses
    let technicalCheck := sheetCheckComments validatePdfLinks probeResult page.finalUrl
      technicalHref "Lien vers la fiche technique invalide" "Fiche technique manquante"
    let extraComments := safetyCheck.1 ++ technicalCheck.1
    if extraComments.length > 0 then
      (⟨url, Verdict.KO, joinSep " ; " extraComments⟩, safetyCheck.2 ++ technicalCheck.2)
    else
      (⟨url, Verdict.OK, ""⟩, safetyCheck.2 ++ technicalCheck.2)

/-- `validateProductPage` from the validator source: protocol check, render,
redirect/identity check, then the documentation analysis.  `render` is the
(already suspended) outcome of `renderProductPage` for this URL; the event
list records which network interactions the function performed. -/
def validateProductPage (parse : String → Option UrlParts)
    (render : Except String FetchedPage)
    (validatePdfLinks : Bool)
    (loadHtml : String → List HtmlElem)
    (probeResult : String → String → Bool)
    (url : String) : ValidationOutcome × List NetEvent :=
  if !isHttpUrl parse url then
    (⟨url, Verdict.KO, "URL invalide ou protocole non supporté"⟩, [])
  else
    match render with
    | Except.error reason =>
      (⟨url, Verdict.KO, "Échec du chargement de la page (" ++ reason ++ ")"⟩,
       [NetEvent.render url])
    | Except.ok page =>
      if !isSameProductUrl parse url page.finalUrl || page.redirected then
        (⟨url, Verdict.KO, "Redirection vers " ++ page.finalUrl⟩, [NetEvent.render url])
      else
        let analyzed := analyzeDocumentation validatePdfLinks loadHtml probeResult url page
        (analyzed.1, NetEvent.render url :: analyzed.2)

/-! ## Worker pool (validator source: `validateUrls`)

The source runs `min(MAX_CONCURRENT_REQUESTS, urls.length)` asynchronous
workers over a shared cursor; the claim of an index (`const index =
currentIndex; currentIndex += 1;`) is synchronous, while the per-URL work is
awaited.  The pool is modelled as a small-step system: each worker is at the
loop head, running a claimed index, or finished, and a schedule (a list of
worker numbers) says which worker advances next.  One step is one atomic
section of a worker. -/

/-- `MAX_CONCURRENT_REQUESTS` from the validator source. -/
def MAX_CONCURRENT_REQUESTS : Nat := 8

/-- What one worker of the pool is doing. -/
inductive WorkerState where
  | atLoop
  | running (index : Nat)
  | done
deriving DecidableEq

/-- The shared state of the pool: the cursor, the workers, and the result
map (an association list in completion order). -/
structure PoolState where
  currentIndex : Nat
  workers : List WorkerState
  results : List (String × ValidationOutcome)
deriving DecidableEq

/-- One step of worker `w`: at the loop head it checks the cursor and either
finishes or atomically claims the next index; a running worker completes its
URL and publishes the outcome.  A step of a finished or nonexistent worker
does nothing. -/
def poolStep (urls : List String) (task : String → ValidationOutcome)
    (s : PoolState) (w : Nat) : PoolState :=
  match s.workers.get? w with
  | some WorkerState.atLoop =>
    if urls.length ≤ s.currentIndex then
      ⟨s.currentIndex, s.workers.set w WorkerState.done, s.results⟩
    else
      ⟨s.currentIndex + 1, s.workers.set w (WorkerState.running s.currentIndex), s.results⟩
  | some (WorkerState.running index) =>
    let url := urls.getD index ""
    ⟨s.currentIndex, s.workers.set w WorkerState.atLoop, (url, task url) :: s.results⟩
  | _ => s

/-- Run the pool under a schedule. -/
def runPool (urls : List String) (task : String → ValidationOutcome)
    (schedule : List Nat) (s : PoolState) : PoolState :=
  schedule.foldl (poolStep urls task) s

/-- The initial pool state: cursor at 0, `min(MAX_CONCURRENT_REQUESTS,
urls.length)` workers at the loop head, empty results. -/
def initPool (urls : List String) : PoolState :=
  ⟨0, List.replicate (min MAX_CONCURRENT_REQUESTS urls.length) WorkerState.atLoop, []⟩

/-- The number of workers `validateUrls` starts: none at all on empty input
(the function returns before creating the worker array). -/
def workersStarted (urls : List String) : Nat :=
  if urls.length = 0 then 0 else min MAX_CONCURRENT_REQUESTS urls.length

/-- `validateUrls` from the validator source: empty input returns the empty
map immediately; otherwise the worker pool runs to completion and its result
map is returned. -/
def validateUrls (urls : List String) (task : String → ValidationOutcome)
    (schedule : List Nat) : List (String × ValidationOutcome) :=
  if urls.length = 0 then []
  else (runPool urls task schedule (initPool urls)).results

/-- All workers have finished. -/
def PoolState.terminal (s : PoolState) : Prop :=
  ∀ w ∈ s.workers, w = WorkerState.done

/-- The indices currently claimed by running workers. -/
def runningIndices (ws : List WorkerState) : List Nat :=
  ws.filterMap (fun w =>
    match w with
    | WorkerState.running i => some i
    | _ => none)

instance (s : PoolState) : Decidable s.terminal :=
  inferInstanceAs (Decidable (∀ w ∈ s.workers, w = WorkerState.done))

/-! ## Definitions taken from the specification's wording

These two definitions do not come from the source; they render the
specification's phrase "the final response URL's path ends in `.pdf`
(optionally followed by a query string or fragment)" so that it can be
compared with what the code computes. -/

/-- Modelled from the spec: skip the scheme and host of a URL string — drop
through `://`, then drop the host up to the first `/`. -/
def afterSchemeHost : List Char → List Char
  | ':' :: '/' :: '/' :: rest => rest.dropWhile (fun c => c ≠ '/')
  | _ :: rest => afterSchemeHost rest
  | [] => []

/-- Modelled from the spec: the path component of a URL string — what
follows the host (after `://`) up to the first `?` or `#`. -/
def specUrlPath (u : String) : String :=
  String.mk ((afterSchemeHost u.data).takeWhile (fun c => c ≠ '?' && c ≠ '#'))

/-- Modelled from the spec: the URL's path ends in `.pdf`
(case-insensitively). -/
def specPathEndsPdf (u : String) : Bool :=
  decide (".pdf".data <:+ (lowerStr (specUrlPath u)).data)

/-- Modelled from the spec: the tri-signal disjunction of the claim —
content-type contains `application/pdf`, content-disposition contains
`application/pdf` or `.pdf`, or the final URL's path ends in `.pdf`. -/
def specPdfSignals (contentType contentDisposition finalUrl : String) : Bool :=
  containsStr (lowerStr contentType) "application/pdf"
  || containsStr (lowerStr contentDisposition) "application/pdf"
  || containsStr (lowerStr contentDisposition) ".pdf"
  || specPathEndsPdf finalUrl

/-- The positions at which the code's PDF-URL regex matches, as a plain
proposition: somewhere in the string, `.pdf` (case-insensitively) is
followed by `?`, `#`, or the end of the string. -/
def PdfUrlPattern (l : List Char) : Prop :=
  ∃ pre c₂ c₃ c₄ post, l = pre ++ '.' :: c₂ :: c₃ :: c₄ :: post ∧
    Char.toLower c₂ = 'p' ∧ Char.toLower c₃ = 'd' ∧ Char.toLower c₄ = 'f' ∧
    (post = [] ∨ ∃ c rest, post = c :: rest ∧ (c = '?' ∨ c = '#'))

/-- The inductive invariant of the worker pool: the cursor never passes the
end; running workers hold distinct indices, all already claimed; a finished
worker exists only once the cursor is exhausted; and the published keys are
exactly the claimed-and-completed URLs. -/
structure PoolInv (urls : List String) (s : PoolState) : Prop where
  hle : s.currentIndex ≤ urls.length
  hnodup : (runningIndices s.workers).Nodup
  hlt : ∀ i ∈ runningIndices s.workers, i < s.currentIndex
  hdone : WorkerState.done ∈ s.workers → s.currentIndex = urls.length
  hkeys : (s.results.map Prod.fst).Perm
    (((List.range s.currentIndex).filter (fun i => i ∉ runningIndices s.workers)).map
      (fun i => urls.getD i ""))

/-! ## Theorems -/

/-! ### Character-level lemmas -/

theorem charToNat_ofNat_valid (n : Nat) (hv : n.isValidChar) :
    (Char.ofNat n).toNat = n := by
  simp [Char.ofNat, hv, Char.toNat, Char.ofNatAux, UInt32.toNat, BitVec.toNat_ofNatLt]

theorem toLower_toLower (c : Char) : (Char.toLower c).toLower = Char.toLower c := by
  unfold Char.toLower
  by_cases h : c.toNat ≥ 65 ∧ c.toNat ≤ 90
  · rw [if_pos h]
    have hv : (c.toNat + 32).isValidChar := by left; omega
    have ht := charToNat_ofNat_valid _ hv
    simp only [ht]
    have hn : ¬(c.toNat + 32 ≥ 65 ∧ c.toNat + 32 ≤ 90) := by omega
    rw [if_neg hn]
  · rw [if_neg h]
    simp only []
    rw [if_neg h]

theorem toLower_slash_iff (c : Char) : Char.toLower c = '/' ↔ c = '/' := by
  constructor
  · intro hc
    unfold Char.toLower at hc
    by_cases h : c.toNat ≥ 65 ∧ c.toNat ≤ 90
    · rw [if_pos h] at hc
      have hv : (c.toNat + 32).isValidChar := by left; omega
      have ht := charToNat_ofNat_valid _ hv
      rw [hc] at ht
      have h47 : ('/').toNat = 47 := by decide
      omega
    · rwa [if_neg h] at hc
  · intro hc
    subst hc
    decide

/-! ### Path-normalization lemmas (claim C5) -/

theorem noDoubleSlash_cons_iff (c : Char) (l : List Char) :
    noDoubleSlash (c :: l) = true ↔
      (noDoubleSlash l = true ∧ ¬(c = '/' ∧ l.head? = some '/')) := by
  cases l with
  | nil => simp [noDoubleSlash]
  | cons d r =>
    simp only [noDoubleSlash, List.head?_cons, Bool.and_eq_true, Bool.not_eq_true',
      Bool.and_eq_false_iff, Option.some.injEq]
    constructor
    · rintro ⟨h1, h2⟩
      refine ⟨h2, ?_⟩
      rintro ⟨hc, hd⟩
      rcases h1 with h | h
      · exact absurd (decide_eq_true hc) (by simp [h])
      · exact absurd (decide_eq_true hd) (by simp [h])
    · rintro ⟨h1, h2⟩
      refine ⟨?_, h1⟩
      by_cases hc : c = '/'
      · right
        by_cases hd : d = '/'
        · exact absurd ⟨hc, hd⟩ h2
        · simp [hd]
      · left
        simp [hc]

theorem collapseAux_head_true (l : List Char) :
    (collapseAux l true).head? ≠ some '/' := by
  induction l with
  | nil => simp [collapseAux]
  | cons c rest ih =>
    by_cases hc : c = '/'
    · simpa [collapseAux, hc] using ih
    · simp [collapseAux, hc]

theorem collapseAux_noDoubleSlash (l : List Char) (b : Bool) :
    noDoubleSlash (collapseAux l b) = true := by
  induction l generalizing b with
  | nil => simp [collapseAux, noDoubleSlash]
  | cons c rest ih =>
    by_cases hc : c = '/'
    · subst hc
      cases b with
      | true => simpa [collapseAux] using ih true
      | false =>
        have hstep : collapseAux ('/' :: rest) false = '/' :: collapseAux rest true := by
          simp [collapseAux]
        rw [hstep, noDoubleSlash_cons_iff]
        exact ⟨ih true, fun h => collapseAux_head_true rest h.2⟩
    · have hstep : collapseAux (c :: rest) b = c :: collapseAux rest false := by
        simp [collapseAux, hc]
      rw [hstep, noDoubleSlash_cons_iff]
      refine ⟨ih false, ?_⟩
      rintro ⟨h, _⟩
      exact hc h

theorem collapseAux_eq_self (l : List Char) (b : Bool)
    (hnd : noDoubleSlash l = true)
    (hb : b = true → l.head? ≠ some '/') : collapseAux l b = l := by
  induction l generalizing b with
  | nil => simp [collapseAux]
  | cons c rest ih =>
    rw [noDoubleSlash_cons_iff] at hnd
    by_cases hc : c = '/'
    · subst hc
      have hb' : b = false := by
        cases b
        · rfl
        · exact absurd (by simp) (hb rfl)
      subst hb'
      have hstep : collapseAux ('/' :: rest) false = '/' :: collapseAux rest true := by
        simp [collapseAux]
      rw [hstep]
      have hrest : collapseAux rest true = rest := by
        refine ih true hnd.1 (fun _ hh => ?_)
        exact hnd.2 ⟨rfl, hh⟩
      rw [hrest]
    · have hstep : collapseAux (c :: rest) b = c :: collapseAux rest false := by
        simp [collapseAux, hc]
      rw [hstep, ih false hnd.1 (by simp)]

theorem stripTrailingSlash_of_lastNotSlash (l : List Char) (h : lastNotSlash l) :
    stripTrailingSlash l = l := by
  unfold stripTrailingSlash
  rw [if_neg h]

theorem noDoubleSlash_dropLast (l : List Char) (h : noDoubleSlash l = true) :
    noDoubleSlash l.dropLast = true := by
  induction l with
  | nil => simp [noDoubleSlash]
  | cons c rest ih =>
    cases rest with
    | nil => simp [noDoubleSlash]
    | cons d r =>
      rw [noDoubleSlash_cons_iff] at h
      have hd : noDoubleSlash (List.dropLast (d :: r)) = true := ih h.1
      rw [List.dropLast_cons₂, noDoubleSlash_cons_iff]
      refine ⟨hd, ?_⟩
      rintro ⟨hc, hhead⟩
      cases r with
      | nil => simp at hhead
      | cons e r' =>
        rw [List.dropLast_cons₂, List.head?_cons] at hhead
        exact h.2 ⟨hc, by rw [List.head?_cons, Option.some.injEq]; exact Option.some.inj hhead⟩

theorem noDoubleSlash_stripTrailingSlash (l : List Char) (h : noDoubleSlash l = true) :
    noDoubleSlash (stripTrailingSlash l) = true := by
  unfold stripTrailingSlash
  by_cases hl : l.getLast? = some '/'
  · rw [if_pos hl]
    exact noDoubleSlash_dropLast l h
  · rwa [if_neg hl]

theorem dropLast_lastNotSlash (l : List Char) (hnd : noDoubleSlash l = true)
    (hl : l.getLast? = some '/') : lastNotSlash l.dropLast := by
  induction l with
  | nil => simp at hl
  | cons c rest ih =>
    cases rest with
    | nil => simp [lastNotSlash]
    | cons d r =>
      rw [noDoubleSlash_cons_iff] at hnd
      rw [List.getLast?_cons_cons] at hl
      have ihr := ih hnd.1 hl
      rw [List.dropLast_cons₂]
      cases r with
      | nil =>
        have hd : d = '/' := by simpa using hl
        unfold lastNotSlash
        intro hcl
        have hc : c = '/' := by simpa using hcl
        exact hnd.2 ⟨hc, by simp [hd]⟩
      | cons e r' =>
        unfold lastNotSlash at ihr ⊢
        rw [List.dropLast_cons₂] at ihr
        rw [List.dropLast_cons₂, List.getLast?_cons_cons]
        exact ihr

theorem lastNotSlash_stripTrailingSlash (l : List Char) (h : noDoubleSlash l = true) :
    lastNotSlash (stripTrailingSlash l) := by
  unfold stripTrailingSlash
  by_cases hl : l.getLast? = some '/'
  · rw [if_pos hl]
    exact dropLast_lastNotSlash l h hl
  · rw [if_neg hl]
    exact hl

theorem map_toLower_noDoubleSlash (l : List Char) (h : noDoubleSlash l = true) :
    noDoubleSlash (l.map Char.toLower) = true := by
  induction l with
  | nil => simp [noDoubleSlash]
  | cons c rest ih =>
    rw [noDoubleSlash_cons_iff] at h
    rw [List.map_cons, noDoubleSlash_cons_iff]
    refine ⟨ih h.1, ?_⟩
    rintro ⟨hc, hhead⟩
    cases rest with
    | nil => simp at hhead
    | cons d r =>
      rw [List.map_cons, List.head?_cons] at hhead
      have hd : Char.toLower d = '/' := Option.some.inj hhead
      exact h.2 ⟨(toLower_slash_iff c).mp hc, by
        rw [List.head?_cons, Option.some.injEq]
        exact (toLower_slash_iff d).mp hd⟩

theorem map_toLower_lastNotSlash (l : List Char) (h : lastNotSlash l) :
    lastNotSlash (l.map Char.toLower) := by
  unfold lastNotSlash at h ⊢
  rw [List.getLast?_map]
  intro hc
  rcases Option.map_eq_some'.mp hc with ⟨c, hcl, hlow⟩
  exact h (by rw [hcl, (toLower_slash_iff c).mp hlow])

theorem map_toLower_idem (l : List Char) :
    (l.map Char.toLower).map Char.toLower = l.map Char.toLower := by
  rw [List.map_map]
  exact List.map_congr_left (fun c _ => toLower_toLower c)

theorem normList_idem (l : List Char) : normList (normList l) = normList l := by
  have h1 : noDoubleSlash (collapseSlashes l) = true := collapseAux_noDoubleSlash l false
  have h2 : noDoubleSlash (stripTrailingSlash (collapseSlashes l)) = true :=
    noDoubleSlash_stripTrailingSlash _ h1
  have h3 : lastNotSlash (stripTrailingSlash (collapseSlashes l)) :=
    lastNotSlash_stripTrailingSlash _ h1
  have h4 : noDoubleSlash (normList l) = true := map_toLower_noDoubleSlash _ h2
  have h5 : lastNotSlash (normList l) := map_toLower_lastNotSlash _ h3
  show (stripTrailingSlash (collapseSlashes (normList l))).map Char.toLower = normList l
  have hc : collapseSlashes (normList l) = normList l :=
    collapseAux_eq_self _ false h4 (by simp)
  rw [hc, stripTrailingSlash_of_lastNotSlash _ h5]
  exact map_toLower_idem _

/-- **C5**: the path normalization of the validator (collapse repeated
slashes, strip a single trailing slash with the root path `/` never
stripped, lowercase) is idempotent for every input path, and satisfies
`normalizePath "/a//b/" = normalizePath "/a/b"` and
`normalizePath "/" = "/"`. -/
theorem normalizePath_idempotent :
    (∀ p : String, normalizePath (normalizePath p) = normalizePath p) ∧
    normalizePath "/a//b/" = normalizePath "/a/b" ∧
    normalizePath "/" = "/" := by
  refine ⟨?_, by decide, by decide⟩
  intro p
  by_cases hp : p = "/"
  · subst hp
    decide
  · simp only [normalizePath, if_neg hp]
    by_cases hq : String.mk (normList p.data) = "/"
    · rw [if_pos hq]
    · rw [if_neg hq]
      show String.mk (normList (normList p.data)) = String.mk (normList p.data)
      rw [normList_idem]

/-! ### Fetch retry behaviour (claim C2) -/

/-- **C2**: evaluation of `fetchPage` against a server that answers HTTP 404
on every attempt.  Because the `throw` for a non-retryable status sits inside
the `try` block of the source, the error is caught by the `catch` and
retried: the code performs all 5 attempts and only then raises
`statut HTTP 404`, instead of raising it immediately on the first
non-retryable failure as the specification requires. -/
theorem fetchPage_404_retries_then_raises :
    fetchPage (fun _ => AttemptOutcome.responds ⟨404, "", none, false⟩)
        "https://shop.example/a"
      = (Except.error "statut HTTP 404", 5) := by
  rfl

/-! ### User-agent header (claim C9) -/

set_option maxRecDepth 4096 in
/-- **C9 (counterexample)**: the User-Agent value carried by the page fetch
and by the PDF probe is the fixed `BROWSER_USER_AGENT` constant, which
impersonates desktop Firefox; it contains neither `product-sheet-validator`
nor even `validator`, so it is not recognizable as this tool. -/
theorem userAgent_not_tool_identifying :
    fetchPageRequestHeaders.lookup "User-Agent" = some BROWSER_USER_AGENT ∧
    pdfProbeRequestHeaders.lookup "User-Agent" = some BROWSER_USER_AGENT ∧
    renderContextUserAgent = BROWSER_USER_AGENT ∧
    containsStr BROWSER_USER_AGENT "product-sheet-validator" = false ∧
    containsStr BROWSER_USER_AGENT "validator" = false ∧
    containsStr BROWSER_USER_AGENT "Firefox" = true := by
  decide

/-- **C9 (amended)**: every request site of the fetch client — the page
fetch headers, the PDF probe headers, and the render context — carries the
same stable User-Agent value, the constant `BROWSER_USER_AGENT`. -/
theorem userAgent_constant_across_requests :
    fetchPageRequestHeaders.lookup "User-Agent" = some BROWSER_USER_AGENT ∧
    pdfProbeRequestHeaders.lookup "User-Agent" = some BROWSER_USER_AGENT ∧
    renderContextUserAgent = BROWSER_USER_AGENT := by
  decide

/-! ### Redirect/identity check (claim C4) -/

theorem isSameProductUrl_iff (parse : String → Option UrlParts)
    (requestedUrl finalUrl : String) (ru fu : UrlParts)
    (hru : parse requestedUrl = some ru) (hfu : parse finalUrl = some fu) :
    isSameProductUrl parse requestedUrl finalUrl = true ↔
      (ru.hostname = fu.hostname ∧
       normalizePath ru.pathname = normalizePath fu.pathname) := by
  unfold isSameProductUrl
  rw [hru, hfu]
  by_cases hh : ru.hostname = fu.hostname
  · simp [hh]
  · simp [hh]

/-- **C4**: once the protocol check has passed and the page has rendered, the
validator proceeds past the redirect/identity check exactly when the final
URL has the same hostname as the requested URL, the same normalized path,
and the renderer's redirect flag is false; if any of the three conditions
fails, the outcome is KO quoting the final URL and no further check runs
(the event trace stops at the single render). -/
theorem redirect_identity_check (parse : String → Option UrlParts)
    (render : Except String FetchedPage) (validatePdfLinks : Bool)
    (loadHtml : String → List HtmlElem) (probeResult : String → String → Bool)
    (url : String) (page : FetchedPage) (ru fu : UrlParts)
    (hhttp : isHttpUrl parse url = true)
    (hrender : render = Except.ok page)
    (hru : parse url = some ru)
    (hfu : parse page.finalUrl = some fu) :
    ((ru.hostname = fu.hostname ∧
        normalizePath ru.pathname = normalizePath fu.pathname ∧
        page.redirected = false) →
      validateProductPage parse render validatePdfLinks loadHtml probeResult url =
        ((analyzeDocumentation validatePdfLinks loadHtml probeResult url page).1,
         NetEvent.render url ::
           (analyzeDocumentation validatePdfLinks loadHtml probeResult url page).2)) ∧
    (¬(ru.hostname = fu.hostname ∧
        normalizePath ru.pathname = normalizePath fu.pathname ∧
        page.redirected = false) →
      validateProductPage parse render validatePdfLinks loadHtml probeResult url =
        (⟨url, Verdict.KO, "Redirection vers " ++ page.finalUrl⟩,
         [NetEvent.render url])) := by
  subst hrender
  constructor
  · rintro ⟨h1, h2, h3⟩
    have hsame : isSameProductUrl parse url page.finalUrl = true :=
      (isSameProductUrl_iff parse url page.finalUrl ru fu hru hfu).mpr ⟨h1, h2⟩
    unfold validateProductPage
    simp [hhttp, hsame, h3]
  · intro hfail
    unfold validateProductPage
    by_cases hsame : isSameProductUrl parse url page.finalUrl = true
    · have hcond := (isSameProductUrl_iff parse url page.finalUrl ru fu hru hfu).mp hsame
      have hred : page.redirected = true := by
        by_contra hr
        exact hfail ⟨hcond.1, hcond.2, Bool.not_eq_true _ ▸ Bool.of_not_eq_true hr⟩
      simp [hhttp, hsame, hred]
    · have hsame' : isSameProductUrl parse url page.finalUrl = false :=
        Bool.of_not_eq_true hsame
      simp [hhttp, hsame']

/-! ### Protocol check (claim C8) -/

/-- **C8**: for every input string that does not parse as a URL or whose
scheme is neither `http` nor `https`, the validator returns KO with the
invalid-URL/protocol comment and its event trace is empty: no render and no
probe is performed for that URL. -/
theorem invalid_url_no_network (parse : String → Option UrlParts)
    (render : Except String FetchedPage) (validatePdfLinks : Bool)
    (loadHtml : String → List HtmlElem) (probeResult : String → String → Bool)
    (url : String)
    (hbad : ∀ p, parse url = some p → p.protocol ≠ "http:" ∧ p.protocol ≠ "https:") :
    validateProductPage parse render validatePdfLinks loadHtml probeResult url =
      (⟨url, Verdict.KO, "URL invalide ou protocole non supporté"⟩, []) := by
  have hhttp : isHttpUrl parse url = false := by
    unfold isHttpUrl
    cases hp : parse url with
    | none => rfl
    | some p =>
      have hb := hbad p hp
      simp [hb.1, hb.2]
  unfold validateProductPage
  simp [hhttp]

/-! ### Both sheet checks always run and their comments are joined (claim C7) -/

/-- **C7**: when the documentation section is present, the outcome of the
analysis is assembled from the safety check and the technical check computed
independently of one another (the technical component depends only on the
technical link and its probe, never on the safety result): both comment
lists are accumulated, a non-empty accumulation gives KO with the comments
joined by `" ; "`, and the events of both checks are performed. -/
theorem analyze_reports_both_sheets (validatePdfLinks : Bool)
    (loadHtml : String → List HtmlElem) (probeResult : String → String → Bool)
    (url : String) (page : FetchedPage) (docSection : HtmlElem)
    (hs : findDocumentationSection (loadHtml page.html) = some docSection) :
    analyzeDocumentation validatePdfLinks loadHtml probeResult url page =
      (let safetyCheck := sheetCheckComments validatePdfLinks probeResult page.finalUrl
          (findDocumentationLink docSection safetyLinkClasses)
          "Lien vers la fiche de sécurité invalide" "Fiche de sécurité manquante"
       let technicalCheck := sheetCheckComments validatePdfLinks probeResult page.finalUrl
          (findDocumentationLink docSection technicalLinkClasses)
          "Lien vers la fiche technique invalide" "Fiche technique manquante"
       ((if (safetyCheck.1 ++ technicalCheck.1).length > 0 then
           ⟨url, Verdict.KO, joinSep " ; " (safetyCheck.1 ++ technicalCheck.1)⟩
         else ⟨url, Verdict.OK, ""⟩),
        safetyCheck.2 ++ technicalCheck.2)) := by
  unfold analyzeDocumentation
  simp only [hs]
  split_ifs with hc
  · rfl
  · rfl

/-! ### Renderer redirect flag is exact string inequality (claim C10) -/

/-- **C10**: `renderProductPage` sets the `redirected` flag exactly when the
final URL differs from the requested URL character for character; as a
consequence, any textual difference at all makes the validator return KO
with a redirection comment — even when the same-hostname-and-normalized-path
test accepts the final URL. -/
theorem render_redirect_flag_strict (parse : String → Option UrlParts)
    (browser : String → Except String RenderResult) (validatePdfLinks : Bool)
    (loadHtml : String → List HtmlElem) (probeResult : String → String → Bool)
    (url : String) (r : RenderResult)
    (hb : browser url = Except.ok r)
    (hhttp : isHttpUrl parse url = true)
    (hdiff : r.finalUrl ≠ url)
    (hsame : isSameProductUrl parse url r.finalUrl = true) :
    renderProductPage browser url = Except.ok ⟨r.html, r.finalUrl, r.finalUrl != url⟩ ∧
    validateProductPage parse (renderProductPage browser url) validatePdfLinks
        loadHtml probeResult url =
      (⟨url, Verdict.KO, "Redirection vers " ++ r.finalUrl⟩, [NetEvent.render url]) := by
  have hrender : renderProductPage browser url
      = Except.ok ⟨r.html, r.finalUrl, r.finalUrl != url⟩ := by
    unfold renderProductPage
    rw [hb]
  refine ⟨hrender, ?_⟩
  have hred : (r.finalUrl != url) = true := by
    simp [bne_iff_ne, hdiff]
  unfold validateProductPage
  rw [hrender]
  simp [hhttp, hsame, hred]

/-! ### PDF signal characterization (claims C3 and C6) -/

theorem pdfDotSuffix_iff (l : List Char) :
    pdfDotSuffix l = true ↔ ∃ c₂ c₃ c₄ post, l = '.' :: c₂ :: c₃ :: c₄ :: post ∧
      Char.toLower c₂ = 'p' ∧ Char.toLower c₃ = 'd' ∧ Char.toLower c₄ = 'f' ∧
      (post = [] ∨ ∃ c rest, post = c :: rest ∧ (c = '?' ∨ c = '#')) := by
  constructor
  · intro h
    rcases l with _ | ⟨c₁, _ | ⟨c₂, _ | ⟨c₃, _ | ⟨c₄, rest⟩⟩⟩⟩
    · simp [pdfDotSuffix] at h
    · simp [pdfDotSuffix] at h
    · simp [pdfDotSuffix] at h
    · simp [pdfDotSuffix] at h
    · simp only [pdfDotSuffix, Bool.and_eq_true, decide_eq_true_eq] at h
      obtain ⟨⟨⟨⟨h1, hp⟩, hd⟩, hf⟩, h5⟩ := h
      subst h1
      refine ⟨c₂, c₃, c₄, rest, rfl, hp, hd, hf, ?_⟩
      cases rest with
      | nil => exact Or.inl rfl
      | cons c r =>
        simp only [Bool.or_eq_true, decide_eq_true_eq] at h5
        exact Or.inr ⟨c, r, rfl, h5⟩
  · rintro ⟨c₂, c₃, c₄, post, rfl, hp, hd, hf, h5⟩
    rcases h5 with rfl | ⟨c, r, rfl, hc⟩
    · simp [pdfDotSuffix, hp, hd, hf]
    · rcases hc with rfl | rfl <;> simp [pdfDotSuffix, hp, hd, hf]

theorem pdfUrlTest_iff (l : List Char) : pdfUrlTest l = true ↔ PdfUrlPattern l := by
  induction l with
  | nil =>
    simp only [pdfUrlTest, PdfUrlPattern]
    constructor
    · intro h
      exact absurd h (by simp)
    · rintro ⟨pre, c₂, c₃, c₄, post, heq, -⟩
      exact absurd heq (by simp)
  | cons c rest ih =>
    rw [show pdfUrlTest (c :: rest) = (pdfDotSuffix (c :: rest) || pdfUrlTest rest) from rfl,
      Bool.or_eq_true, ih, pdfDotSuffix_iff]
    constructor
    · rintro (⟨c₂, c₃, c₄, post, heq, h2, h3, h4, h5⟩ |
        ⟨pre, c₂, c₃, c₄, post, heq, h2, h3, h4, h5⟩)
      · exact ⟨[], c₂, c₃, c₄, post, by rw [heq]; rfl, h2, h3, h4, h5⟩
      · exact ⟨c :: pre, c₂, c₃, c₄, post, by rw [List.cons_append, heq], h2, h3, h4, h5⟩
    · rintro ⟨pre, c₂, c₃, c₄, post, heq, h2, h3, h4, h5⟩
      cases pre with
      | nil =>
        left
        exact ⟨c₂, c₃, c₄, post, by simpa using heq, h2, h3, h4, h5⟩
      | cons p pre' =>
        right
        rw [List.cons_append] at heq
        injection heq with hh ht
        exact ⟨pre', c₂, c₃, c₄, post, ht, h2, h3, h4, h5⟩

set_option maxRecDepth 8192 in
/-- **C3 (counterexample)**: a success HEAD response with content-type
`text/html`, no content-disposition, and final URL
`https://shop.example/doc?file=a.pdf` — whose path is `/doc`, which does not
end in `.pdf` — makes the verifier return `true` (the source tests its regex
against the whole URL string, and `.pdf` at the end of the query string
matches), while the claim's tri-signal disjunction is false.  So "returns
true iff one of the three signals holds" fails at this input. -/
theorem isValidPdfLink_path_counterexample :
    isValidPdfLink (fun _ _ => some "https://shop.example/doc")
        (fun _ => Except.ok
          ⟨true, some "text/html", none, some "https://shop.example/doc?file=a.pdf"⟩)
        "https://shop.example/p" "doc" = true ∧
    specPdfSignals "text/html" "" "https://shop.example/doc?file=a.pdf" = false ∧
    specUrlPath "https://shop.example/doc?file=a.pdf" = "/doc" := by
  decide

set_option maxRecDepth 8192 in
/-- **C3 (amended)**: for every success HEAD response, the verifier returns
`true` iff the lowercased content-type contains `application/pdf`, or the
lowercased content-disposition contains `application/pdf` or `.pdf`, or
somewhere in the final URL string `.pdf` (case-insensitively) is immediately
followed by `?`, `#`, or the end of the string. -/
theorem isValidPdfLink_signals (urlResolve : String → String → Option String)
    (probe : String → Except String HeadResponse) (baseUrl href : String)
    (r : HeadResponse)
    (hp : probe (resolveUrl urlResolve baseUrl href) = Except.ok r)
    (hok : r.ok = true) :
    isValidPdfLink urlResolve probe baseUrl href = true ↔
      ("application/pdf".data <:+: (lowerStr (r.contentType.getD "")).data) ∨
      ("application/pdf".data <:+: (lowerStr (r.contentDisposition.getD "")).data) ∨
      (".pdf".data <:+: (lowerStr (r.contentDisposition.getD "")).data) ∨
      PdfUrlPattern (r.url.getD (resolveUrl urlResolve baseUrl href)).data := by
  unfold isValidPdfLink isValidPdfLinkBody
  simp only [hp, hok, Bool.not_true, Bool.false_eq_true, if_false, Bool.or_eq_true,
    containsStr, decide_eq_true_eq, pdfUrlTest_iff, or_assoc]

/-- **C3 (witness for the amended theorem)**: instantiation at a success
response carrying `content-type: application/pdf`. -/
theorem isValidPdfLink_signals_witness :
    isValidPdfLink (fun _ _ => some "https://shop.example/a.bin")
        (fun _ => Except.ok ⟨true, some "application/pdf", none, none⟩)
        "https://shop.example/p" "a.bin" = true ↔
      ("application/pdf".data <:+:
        (lowerStr ((some "application/pdf").getD "")).data) ∨
      ("application/pdf".data <:+: (lowerStr ((none : Option String).getD "")).data) ∨
      (".pdf".data <:+: (lowerStr ((none : Option String).getD "")).data) ∨
      PdfUrlPattern (((none : Option String).getD
        (resolveUrl (fun _ _ => some "https://shop.example/a.bin")
          "https://shop.example/p" "a.bin"))).data :=
  isValidPdfLink_signals (fun _ _ => some "https://shop.example/a.bin")
    (fun _ => Except.ok ⟨true, some "application/pdf", none, none⟩)
    "https://shop.example/p" "a.bin"
    ⟨true, some "application/pdf", none, none⟩ rfl rfl

set_option maxRecDepth 8192 in
/-- **C6 (counterexample)**: when the URL constructor fails on
(`"x.pdf"`, base `"not a base"`), the verifier does not fold the failure to
`false`: it falls back to probing the href as if absolute, and with a
successful PDF response it returns `true`.  So "every error (URL resolution
failure, …) folds to the boolean result false" fails at this input. -/
theorem isValidPdfLink_resolution_fallback_counterexample :
    (fun (_ _ : String) => (none : Option String)) "x.pdf" "not a base" = none ∧
    isValidPdfLink (fun _ _ => none)
        (fun _ => Except.ok ⟨true, some "application/pdf", none, none⟩)
        "not a base" "x.pdf" = true := by
  decide

/-- **C6 (amended)**: the verifier never raises — it is a total boolean
function in which a thrown probe (transport failure or probe error) folds to
`false` and a non-success HTTP status yields `false`; a URL resolution
failure, however, is not folded to `false` but falls back to treating the
href as already absolute. -/
theorem isValidPdfLink_error_folding (urlResolve : String → String → Option String)
    (probe : String → Except String HeadResponse) (baseUrl href : String) :
    (∀ e, probe (resolveUrl urlResolve baseUrl href) = Except.error e →
      isValidPdfLink urlResolve probe baseUrl href = false) ∧
    (∀ r, probe (resolveUrl urlResolve baseUrl href) = Except.ok r → r.ok = false →
      isValidPdfLink urlResolve probe baseUrl href = false) ∧
    (urlResolve href baseUrl = none → resolveUrl urlResolve baseUrl href = href) := by
  refine ⟨?_, ?_, ?_⟩
  · intro e he
    unfold isValidPdfLink isValidPdfLinkBody
    simp only [he]
  · intro r hr hok
    unfold isValidPdfLink isValidPdfLinkBody
    simp only [hr, hok, Bool.not_false, if_true]
  · intro hres
    unfold resolveUrl
    rw [hres]

/-- **C6 (witness for the amended theorem)**: a thrown probe at a concrete
input folds to `false`. -/
theorem isValidPdfLink_error_folding_witness :
    isValidPdfLink (fun _ _ => some "https://shop.example/a.pdf")
        (fun _ => Except.error "connection reset")
        "https://shop.example/p" "a.pdf" = false :=
  (isValidPdfLink_error_folding (fun _ _ => some "https://shop.example/a.pdf")
    (fun _ => Except.error "connection reset")
    "https://shop.example/p" "a.pdf").1 "connection reset" rfl

/-! ### Worker-pool invariant (claim C1) -/

theorem get?_set_decompose {α : Type} (l : List α) (w : Nat) (a : α)
    (h : l.get? w = some a) (b : α) :
    ∃ pre post, l = pre ++ a :: post ∧ l.set w b = pre ++ b :: post := by
  induction l generalizing w with
  | nil => simp at h
  | cons x xs ih =>
    cases w with
    | zero =>
      rw [List.get?_cons_zero, Option.some.injEq] at h
      subst h
      exact ⟨[], xs, rfl, rfl⟩
    | succ n =>
      rw [List.get?_cons_succ] at h
      rcases ih n h with ⟨pre, post, h1, h2⟩
      refine ⟨x :: pre, post, by rw [List.cons_append, ← h1], ?_⟩
      show x :: xs.set n b = x :: pre ++ b :: post
      rw [h2]
      rfl

theorem runningIndices_append (l₁ l₂ : List WorkerState) :
    runningIndices (l₁ ++ l₂) = runningIndices l₁ ++ runningIndices l₂ :=
  List.filterMap_append l₁ l₂ _

theorem runningIndices_cons_atLoop (l : List WorkerState) :
    runningIndices (WorkerState.atLoop :: l) = runningIndices l := rfl

theorem runningIndices_cons_done (l : List WorkerState) :
    runningIndices (WorkerState.done :: l) = runningIndices l := rfl

theorem runningIndices_cons_running (i : Nat) (l : List WorkerState) :
    runningIndices (WorkerState.running i :: l) = i :: runningIndices l := rfl

theorem runningIndices_replicate_atLoop (k : Nat) :
    runningIndices (List.replicate k WorkerState.atLoop) = [] := by
  induction k with
  | zero => rfl
  | succ n ih => rw [List.replicate_succ, runningIndices_cons_atLoop, ih]

theorem map_getD_range (l : List String) :
    (List.range l.length).map (fun i => l.getD i "") = l := by
  induction l with
  | nil => rfl
  | cons x xs ih =>
    rw [List.length_cons, List.range_succ_eq_map, List.map_cons, List.map_map]
    have hcomp : ((fun i => (x :: xs).getD i "") ∘ Nat.succ) = fun i => xs.getD i "" :=
      funext fun i => rfl
    rw [hcomp, ih, List.getD_cons_zero]

theorem poolInv_init (urls : List String) : PoolInv urls (initPool urls) := by
  refine ⟨Nat.zero_le _, ?_, ?_, ?_, ?_⟩
  · rw [show (initPool urls).workers
        = List.replicate (min MAX_CONCURRENT_REQUESTS urls.length) WorkerState.atLoop from rfl,
      runningIndices_replicate_atLoop]
    exact List.nodup_nil
  · intro i hi
    rw [show (initPool urls).workers
        = List.replicate (min MAX_CONCURRENT_REQUESTS urls.length) WorkerState.atLoop from rfl,
      runningIndices_replicate_atLoop] at hi
    simp at hi
  · intro hmem
    have := List.eq_of_mem_replicate hmem
    simp at this
  · rw [show (initPool urls).results = [] from rfl,
      show (initPool urls).currentIndex = 0 from rfl]
    simp

theorem poolInv_step (urls : List String) (task : String → ValidationOutcome)
    (s : PoolState) (w : Nat) (hinv : PoolInv urls s) :
    PoolInv urls (poolStep urls task s w) := by
  unfold poolStep
  cases hget : s.workers.get? w with
  | none => exact hinv
  | some ws =>
    cases ws with
    | done => exact hinv
    | atLoop =>
      rcases get?_set_decompose s.workers w WorkerState.atLoop hget WorkerState.done
        with ⟨pre, post, hdec, hsetd⟩
      rcases get?_set_decompose s.workers w WorkerState.atLoop hget
          (WorkerState.running s.currentIndex)
        with ⟨pre', post', hdec', hsetr⟩
      by_cases hend : urls.length ≤ s.currentIndex
      · rw [if_pos hend]
        have hri : runningIndices (s.workers.set w WorkerState.done)
            = runningIndices s.workers := by
          rw [hsetd, hdec, runningIndices_append, runningIndices_append,
            runningIndices_cons_done, runningIndices_cons_atLoop]
        refine ⟨hinv.hle, ?_, ?_, ?_, ?_⟩
        · show (runningIndices (s.workers.set w WorkerState.done)).Nodup
          rw [hri]
          exact hinv.hnodup
        · show ∀ i ∈ runningIndices (s.workers.set w WorkerState.done), i < s.currentIndex
          rw [hri]
          exact hinv.hlt
        · intro _
          exact Nat.le_antisymm hinv.hle hend
        · show (s.results.map Prod.fst).Perm _
          have h := hinv.hkeys
          simp only [hri]
          exact h
      · rw [if_neg hend]
        have hlt' : s.currentIndex < urls.length := Nat.lt_of_not_le hend
        have hold : runningIndices s.workers
            = runningIndices pre' ++ runningIndices post' := by
          rw [hdec', runningIndices_append, runningIndices_cons_atLoop]
        have hnew : runningIndices (s.workers.set w (WorkerState.running s.currentIndex))
            = runningIndices pre' ++ s.currentIndex :: runningIndices post' := by
          rw [hsetr, runningIndices_append, runningIndices_cons_running]
        have hperm : (runningIndices pre' ++ s.currentIndex :: runningIndices post').Perm
            (s.currentIndex :: (runningIndices pre' ++ runningIndices post')) :=
          List.perm_middle
        have hnotmem : s.currentIndex ∉ runningIndices pre' ++ runningIndices post' := by
          intro hmem
          have := hinv.hlt s.currentIndex (by rw [hold]; exact hmem)
          omega
        refine ⟨hlt', ?_, ?_, ?_, ?_⟩
        · show (runningIndices (s.workers.set w (WorkerState.running s.currentIndex))).Nodup
          rw [hnew]
          refine (List.Perm.nodup_iff hperm).mpr ?_
          refine List.nodup_cons.mpr ⟨hnotmem, ?_⟩
          have h := hinv.hnodup
          rwa [hold] at h
        · intro i hi
          show i < s.currentIndex + 1
          rw [hnew] at hi
          have hi' := (List.Perm.mem_iff hperm).mp hi
          rcases List.mem_cons.mp hi' with rfl | hi''
          · omega
          · have := hinv.hlt i (by rw [hold]; exact hi'')
            omega
        · intro hmem
          exfalso
          have hmem' : WorkerState.done ∈ s.workers := by
            rw [hdec']
            show WorkerState.done ∈ pre' ++ WorkerState.atLoop :: post'
            rw [hsetr] at hmem
            rcases List.mem_append.mp hmem with h | h
            · exact List.mem_append.mpr (Or.inl h)
            · rcases List.mem_cons.mp h with h' | h'
              · exact absurd h' (by simp)
              · exact List.mem_append.mpr (Or.inr (List.mem_cons_of_mem _ h'))
          have := hinv.hdone hmem'
          omega
        · show (s.results.map Prod.fst).Perm _
          have hfil :
              (List.range (s.currentIndex + 1)).filter
                (fun i => decide (i ∉ runningIndices
                  (s.workers.set w (WorkerState.running s.currentIndex))))
              = (List.range s.currentIndex).filter
                (fun i => decide (i ∉ runningIndices s.workers)) := by
            rw [List.range_succ, List.filter_append]
            have hlast : (List.filter
                (fun i => decide (i ∉ runningIndices
                  (s.workers.set w (WorkerState.running s.currentIndex))))
                [s.currentIndex]) = [] := by
              have hmem : s.currentIndex ∈ runningIndices
                  (s.workers.set w (WorkerState.running s.currentIndex)) := by
                rw [hnew]
                exact (List.Perm.mem_iff hperm).mpr (List.mem_cons_self _ _)
              simp [hmem]
            rw [hlast, List.append_nil]
            refine List.filter_congr ?_
            intro i hi
            have hine : i ≠ s.currentIndex := by
              have := List.mem_range.mp hi
              omega
            have hiff : i ∈ runningIndices
                  (s.workers.set w (WorkerState.running s.currentIndex))
                ↔ i ∈ runningIndices s.workers := by
              rw [hnew, hold]
              rw [List.Perm.mem_iff hperm]
              constructor
              · intro h
                rcases List.mem_cons.mp h with h' | h'
                · exact absurd h' hine
                · exact h'
              · intro h
                exact List.mem_cons_of_mem _ h
            exact decide_eq_decide.mpr (not_congr hiff)
          rw [hfil]
          exact hinv.hkeys
    | running i =>
      rcases get?_set_decompose s.workers w (WorkerState.running i) hget WorkerState.atLoop
        with ⟨pre, post, hdec, hset⟩
      have hold : runningIndices s.workers
          = runningIndices pre ++ i :: runningIndices post := by
        rw [hdec, runningIndices_append, runningIndices_cons_running]
      have hnew : runningIndices (s.workers.set w WorkerState.atLoop)
          = runningIndices pre ++ runningIndices post := by
        rw [hset, runningIndices_append, runningIndices_cons_atLoop]
      have holdperm : (runningIndices pre ++ i :: runningIndices post).Perm
          (i :: (runningIndices pre ++ runningIndices post)) := List.perm_middle
      have holdnodup : (i :: (runningIndices pre ++ runningIndices post)).Nodup := by
        refine (List.Perm.nodup_iff holdperm).mp ?_
        have h := hinv.hnodup
        rwa [hold] at h
      have hinotmem : i ∉ runningIndices pre ++ runningIndices post :=
        (List.nodup_cons.mp holdnodup).1
      have hrestnodup : (runningIndices pre ++ runningIndices post).Nodup :=
        (List.nodup_cons.mp holdnodup).2
      have himem : i ∈ runningIndices s.workers := by
        rw [hold]
        exact (List.Perm.mem_iff holdperm).mpr (List.mem_cons_self _ _)
      have hilt : i < s.currentIndex := hinv.hlt i himem
      refine ⟨hinv.hle, ?_, ?_, ?_, ?_⟩
      · show (runningIndices (s.workers.set w WorkerState.atLoop)).Nodup
        rw [hnew]
        exact hrestnodup
      · intro j hj
        show j < s.currentIndex
        rw [hnew] at hj
        refine hinv.hlt j ?_
        rw [hold]
        exact (List.Perm.mem_iff holdperm).mpr (List.mem_cons_of_mem _ hj)
      · intro hmem
        refine hinv.hdone ?_
        rw [hdec]
        rw [hset] at hmem
        rcases List.mem_append.mp hmem with h | h
        · exact List.mem_append.mpr (Or.inl h)
        · rcases List.mem_cons.mp h with h' | h'
          · exact absurd h' (by simp)
          · exact List.mem_append.mpr (Or.inr (List.mem_cons_of_mem _ h'))
      · show ((urls.getD i "", task (urls.getD i "")) :: s.results).map Prod.fst
          |>.Perm _
        have hfilperm :
            ((List.range s.currentIndex).filter
              (fun j => decide (j ∉ runningIndices (s.workers.set w WorkerState.atLoop)))).Perm
            (i :: (List.range s.currentIndex).filter
              (fun j => decide (j ∉ runningIndices s.workers))) := by
          have hLnodup : ((List.range s.currentIndex).filter
              (fun j => decide (j ∉ runningIndices
                (s.workers.set w WorkerState.atLoop)))).Nodup :=
            List.Nodup.filter _ (List.nodup_range _)
          have hfoldnodup : ((List.range s.currentIndex).filter
              (fun j => decide (j ∉ runningIndices s.workers))).Nodup :=
            List.Nodup.filter _ (List.nodup_range _)
          have hinotfil : i ∉ (List.range s.currentIndex).filter
              (fun j => decide (j ∉ runningIndices s.workers)) := by
            intro hmem
            have := (List.mem_filter.mp hmem).2
            simp only [decide_eq_true_eq] at this
            exact this himem
          have hRnodup : (i :: (List.range s.currentIndex).filter
              (fun j => decide (j ∉ runningIndices s.workers))).Nodup :=
            List.nodup_cons.mpr ⟨hinotfil, hfoldnodup⟩
          refine (List.perm_ext_iff_of_nodup hLnodup hRnodup).mpr ?_
          intro j
          rw [List.mem_filter, List.mem_cons, List.mem_filter]
          simp only [decide_eq_true_eq, List.mem_range]
          constructor
          · rintro ⟨hjr, hjnew⟩
            by_cases hji : j = i
            · exact Or.inl hji
            · refine Or.inr ⟨hjr, ?_⟩
              intro hjold
              rw [hold] at hjold
              rcases List.mem_cons.mp ((List.Perm.mem_iff holdperm).mp hjold) with h' | h'
              · exact hji h'
              · rw [hnew] at hjnew
                exact hjnew h'
          · rintro (rfl | ⟨hjr, hjold⟩)
            · refine ⟨hilt, ?_⟩
              rw [hnew]
              exact hinotmem
            · refine ⟨hjr, ?_⟩
              intro hjnew
              rw [hnew] at hjnew
              refine hjold ?_
              rw [hold]
              exact (List.Perm.mem_iff holdperm).mpr (List.mem_cons_of_mem _ hjnew)
        rw [List.map_cons]
        refine List.Perm.trans (List.Perm.cons _ hinv.hkeys) ?_
        refine List.Perm.trans ?_ (List.Perm.map _ hfilperm.symm)
        rw [List.map_cons]

theorem poolInv_runPool (urls : List String) (task : String → ValidationOutcome)
    (schedule : List Nat) (s : PoolState) (hinv : PoolInv urls s) :
    PoolInv urls (runPool urls task schedule s) := by
  induction schedule generalizing s with
  | nil => exact hinv
  | cons w rest ih => exact ih _ (poolInv_step urls task s w hinv)

theorem poolStep_workers_length (urls : List String) (task : String → ValidationOutcome)
    (s : PoolState) (w : Nat) :
    (poolStep urls task s w).workers.length = s.workers.length := by
  unfold poolStep
  cases hget : s.workers.get? w with
  | none => rfl
  | some ws =>
    cases ws with
    | atLoop =>
      by_cases hend : urls.length ≤ s.currentIndex
      · rw [if_pos hend]
        exact List.length_set s.workers w _
      · rw [if_neg hend]
        exact List.length_set s.workers w _
    | running i => exact List.length_set s.workers w _
    | done => rfl

theorem runPool_workers_length (urls : List String) (task : String → ValidationOutcome)
    (schedule : List Nat) (s : PoolState) :
    (runPool urls task schedule s).workers.length = s.workers.length := by
  induction schedule generalizing s with
  | nil => rfl
  | cons w rest ih =>
    show (runPool urls task rest (poolStep urls task s w)).workers.length = _
    rw [ih (poolStep urls task s w), poolStep_workers_length]

theorem terminal_keys (urls : List String)
    (s : PoolState) (hinv : PoolInv urls s) (hterm : s.terminal)
    (hne : s.workers ≠ []) :
    (s.results.map Prod.fst).Perm urls := by
  have hdone : WorkerState.done ∈ s.workers := by
    cases hw : s.workers with
    | nil => exact absurd hw hne
    | cons a l =>
      have ha := hterm a (by rw [hw]; exact List.mem_cons_self a l)
      rw [← ha]
      exact List.mem_cons_self a l
  have hidx : s.currentIndex = urls.length := hinv.hdone hdone
  have hri : runningIndices s.workers = [] := by
    unfold runningIndices
    rw [List.filterMap_eq_nil_iff]
    intro a ha
    rw [hterm a ha]
  have hkeys := hinv.hkeys
  rw [hidx, hri] at hkeys
  have hfil : (List.range urls.length).filter
      (fun i => decide (i ∉ ([] : List Nat))) = List.range urls.length :=
    List.filter_eq_self.mpr (by simp)
  rw [hfil, map_getD_range] at hkeys
  exact hkeys

/-- **C1**: for every input list of distinct URLs and every schedule that
runs the pool to completion, the key list of the map returned by
`validateUrls` is a permutation of the input list — every input URL is a key
exactly once and there are no other keys — and for the empty input the
function returns the empty map immediately, without starting any worker. -/
theorem validateUrls_keys (urls : List String) (task : String → ValidationOutcome)
    (schedule : List Nat) (hnd : urls.Nodup)
    (hterm : (runPool urls task schedule (initPool urls)).terminal) :
    ((validateUrls urls task schedule).map Prod.fst).Perm urls ∧
    ((validateUrls urls task schedule).map Prod.fst).Nodup ∧
    validateUrls [] task schedule = [] ∧
    workersStarted [] = 0 := by
  have hmain : ((validateUrls urls task schedule).map Prod.fst).Perm urls := by
    by_cases hurls : urls.length = 0
    · have hnil : urls = [] := List.length_eq_zero.mp hurls
      subst hnil
      unfold validateUrls
      simp
    · unfold validateUrls
      rw [if_neg hurls]
      have hinv := poolInv_runPool urls task schedule (initPool urls) (poolInv_init urls)
      have hne : (runPool urls task schedule (initPool urls)).workers ≠ [] := by
        intro hnil
        have hlen := runPool_workers_length urls task schedule (initPool urls)
        rw [hnil] at hlen
        have : min MAX_CONCURRENT_REQUESTS urls.length = 0 := by
          simpa [initPool] using hlen.symm
        rcases Nat.min_eq_zero_iff.mp this with h | h
        · exact absurd h (by decide)
        · exact hurls h
      exact terminal_keys urls _ hinv hterm hne
  refine ⟨hmain, (List.Perm.nodup_iff hmain).mpr hnd, ?_, rfl⟩
  unfold validateUrls
  simp

/-- **C1 (witness)**: a two-URL batch with two workers, under the schedule
in which worker 0 processes both URLs and then both workers observe the
exhausted cursor. -/
theorem validateUrls_keys_witness :
    ((validateUrls ["https://shop.example/a", "https://shop.example/b"]
        (fun u => ⟨u, Verdict.OK, ""⟩) [0, 0, 0, 0, 0, 1]).map Prod.fst).Perm
      ["https://shop.example/a", "https://shop.example/b"] ∧
    ((validateUrls ["https://shop.example/a", "https://shop.example/b"]
        (fun u => ⟨u, Verdict.OK, ""⟩) [0, 0, 0, 0, 0, 1]).map Prod.fst).Nodup ∧
    validateUrls [] (fun u => ⟨u, Verdict.OK, ""⟩) [0, 0, 0, 0, 0, 1] = [] ∧
    workersStarted [] = 0 :=
  validateUrls_keys ["https://shop.example/a", "https://shop.example/b"]
    (fun u => ⟨u, Verdict.OK, ""⟩) [0, 0, 0, 0, 0, 1] (by decide) (by decide)

/-! ### Witnesses for the per-URL validation theorems -/

/-- **C4 (witness)**: the redirect-to-home scenario — requested
`https://shop.example/a`, final URL `https://shop.example/` — fails the
normalized-path comparison, so the outcome is the redirect KO after the
single render. -/
theorem redirect_identity_check_witness :
    validateProductPage
        (fun u => if u = "https://shop.example/a" then
            some ⟨"https:", "shop.example", "/a"⟩
          else if u = "https://shop.example/" then
            some ⟨"https:", "shop.example", "/"⟩
          else none)
        (Except.ok ⟨"<html></html>", "https://shop.example/", false⟩) true
        (fun _ => []) (fun _ _ => false) "https://shop.example/a" =
      (⟨"https://shop.example/a", Verdict.KO,
        "Redirection vers " ++ "https://shop.example/"⟩,
       [NetEvent.render "https://shop.example/a"]) :=
  (redirect_identity_check
    (fun u => if u = "https://shop.example/a" then
        some ⟨"https:", "shop.example", "/a"⟩
      else if u = "https://shop.example/" then
        some ⟨"https:", "shop.example", "/"⟩
      else none)
    (Except.ok ⟨"<html></html>", "https://shop.example/", false⟩) true
    (fun _ => []) (fun _ _ => false) "https://shop.example/a"
    ⟨"<html></html>", "https://shop.example/", false⟩
    ⟨"https:", "shop.example", "/a"⟩ ⟨"https:", "shop.example", "/"⟩
    (by decide) rfl (by decide) (by decide)).2 (by decide)

/-- **C7 (witness)**: a page whose documentation section carries a safety
link whose probe fails and no technical link: the outcome reports both
reasons, joined with `" ; "`, and the safety probe was performed. -/
theorem analyze_reports_both_sheets_witness :
    analyzeDocumentation true
        (fun _ => [⟨"page__content rte text-subtext product-documentation",
          [⟨true,
            some "product-documentation__link product-documentation__link--safety-data-sheet",
            some "/docs/safety.bin"⟩]⟩])
        (fun _ _ => false) "https://shop.example/a"
        ⟨"<html></html>", "https://shop.example/a", false⟩ =
      (⟨"https://shop.example/a", Verdict.KO,
        "Lien vers la fiche de sécurité invalide ; Fiche technique manquante"⟩,
       [NetEvent.probe "https://shop.example/a" "/docs/safety.bin"]) := by
  rw [analyze_reports_both_sheets true
    (fun _ => [⟨"page__content rte text-subtext product-documentation",
      [⟨true,
        some "product-documentation__link product-documentation__link--safety-data-sheet",
        some "/docs/safety.bin"⟩]⟩])
    (fun _ _ => false) "https://shop.example/a"
    ⟨"<html></html>", "https://shop.example/a", false⟩
    ⟨"page__content rte text-subtext product-documentation",
      [⟨true,
        some "product-documentation__link product-documentation__link--safety-data-sheet",
        some "/docs/safety.bin"⟩]⟩
    (by decide)]
  decide

/-- **C8 (witness)**: the malformed URL `not-a-url` (the parse oracle fails
on it) yields the invalid-URL/protocol KO and an empty event trace. -/
theorem invalid_url_no_network_witness :
    validateProductPage (fun _ => none)
        (Except.ok ⟨"<html></html>", "https://shop.example/a", false⟩) true
        (fun _ => []) (fun _ _ => false) "not-a-url" =
      (⟨"not-a-url", Verdict.KO, "URL invalide ou protocole non supporté"⟩, []) :=
  invalid_url_no_network (fun _ => none)
    (Except.ok ⟨"<html></html>", "https://shop.example/a", false⟩) true
    (fun _ => []) (fun _ _ => false) "not-a-url"
    (fun _ hp => Option.noConfusion hp)

/-- **C10 (witness)**: the final URL differs from the requested URL only by
a trailing slash — the same-hostname-and-normalized-path test accepts it —
yet the string-inequality redirect flag forces the redirect KO. -/
theorem render_redirect_flag_strict_witness :
    validateProductPage
        (fun u => if u = "https://shop.example/a" then
            some ⟨"https:", "shop.example", "/a"⟩
          else if u = "https://shop.example/a/" then
            some ⟨"https:", "shop.example", "/a/"⟩
          else none)
        (renderProductPage (fun _ => Except.ok ⟨"https://shop.example/a/", "<html></html>"⟩)
          "https://shop.example/a")
        true (fun _ => []) (fun _ _ => false) "https://shop.example/a" =
      (⟨"https://shop.example/a", Verdict.KO,
        "Redirection vers " ++ "https://shop.example/a/"⟩,
       [NetEvent.render "https://shop.example/a"]) :=
  (render_redirect_flag_strict
    (fun u => if u = "https://shop.example/a" then
        some ⟨"https:", "shop.example", "/a"⟩
      else if u = "https://shop.example/a/" then
        some ⟨"https:", "shop.example", "/a/"⟩
      else none)
    (fun _ => Except.ok ⟨"https://shop.example/a/", "<html></html>"⟩) true
    (fun _ => []) (fun _ _ => false) "https://shop.example/a"
    ⟨"https://shop.example/a/", "<html></html>"⟩
    rfl (by decide) (by decide) (by decide)).2
